import Mathlib

/-!
Verification of the API Query Engine of `we-api-finder` (a bulk
static-analysis helper for browser-extension corpora).

The development shallowly embeds the engine's JavaScript source:

* `src/helpers/we-api-finder.js` — pattern compiler (`compileQuery`),
  synchronous `QueryMatcher` / `QueryCompiler`;
* the worker-pool module — `QueryMatcherWorkerPool`, the async
  `QueryCompiler` facade and `AsyncQueryMatcher`.

JavaScript `RegExp` values are embedded as an explicit abstract syntax
(`Reg`) covering exactly the constructs the engine's regex fragments use
(character classes given by ranges, literal runs, alternation,
concatenation, star over a character class, lookahead, `^`, `$`), with an
executable existence-of-a-match semantics (`Reg.mat` / `rtest`) that
mirrors `RegExp.prototype.test`: the pattern is tried at every start
position; `^` means start of input, `$` means end of input (no `m` flag).
Greedy-vs-lazy distinctions are irrelevant for match existence, so
alternation collects all outcomes.
-/

/-- Membership of a character in a class, the class being a list of
inclusive ranges (singleton ranges encode single characters). -/
def rangesContain (rs : List (Char × Char)) (c : Char) : Bool :=
  rs.any fun r => decide (r.1 ≤ c) && decide (c ≤ r.2)

/-- Abstract syntax of the regex fragments composed by `we-api-finder.js`. -/
inductive Reg : Type where
  | eps : Reg
  | cls : List (Char × Char) → Reg
  | str : List Char → Reg
  | alt : Reg → Reg → Reg
  | cat : Reg → Reg → Reg
  | starCls : List (Char × Char) → Reg
  | look : Reg → Reg
  | bos : Reg
  | eos : Reg
deriving DecidableEq, Repr

/-- All ways the star of a character class can consume a prefix of the
input: each result is the flag/rest pair after consuming 0, 1, 2, …
class characters. The Bool flag records "still at input position 0"
(used by `^`). -/
def starTails (rs : List (Char × Char)) : Bool → List Char → List (Bool × List Char)
  | b, [] => [(b, [])]
  | b, c :: cs =>
    (b, c :: cs) :: (if rangesContain rs c then starTails rs false cs else [])

/-- Nondeterministic matching at a fixed start position: the list of all
(flag, remaining-input) pairs reachable by matching `r` at the front of
`t`. The Bool flag is true while the current position is index 0 of the
whole input (semantics of `^` without the `m` flag). -/
def Reg.mat : Reg → Bool → List Char → List (Bool × List Char)
  | .eps, b, t => [(b, t)]
  | .cls _, _, [] => []
  | .cls rs, _, c :: cs => if rangesContain rs c then [(false, cs)] else []
  | .str l, b, t =>
    if l.isPrefixOf t then [(b && l.isEmpty, t.drop l.length)] else []
  | .alt r1 r2, b, t => r1.mat b t ++ r2.mat b t
  | .cat r1 r2, b, t => (r1.mat b t).flatMap fun p => r2.mat p.1 p.2
  | .starCls rs, b, t => starTails rs b t
  | .look r, b, t => if (r.mat b t).isEmpty then [] else [(b, t)]
  | .bos, b, t => if b then [(b, t)] else []
  | .eos, b, t => if t.isEmpty then [(b, t)] else []

/-- `RegExp.prototype.test` semantics from a given position: try `r` at
this suffix, else one character further. The flag is true only at the
very first position. -/
def rtestFrom (r : Reg) : Bool → List Char → Bool
  | b, [] => !(r.mat b []).isEmpty
  | b, c :: cs => !(r.mat b (c :: cs)).isEmpty || rtestFrom r false cs

/-- `regex.test(s)` for the embedded regex `r`. -/
def rtest (r : Reg) (s : String) : Bool :=
  rtestFrom r true s.toList

/-! ### The lexical fragments (we-api-finder.js lines 18–25)

Classes are transliterated range lists; `\s` is the JavaScript
whitespace class. -/

/-- JavaScript `\s`. -/
def jsWhitespace : List (Char × Char) :=
  [('\t', '\t'), ('\n', '\n'), ('\x0b', '\x0b'), ('\x0c', '\x0c'),
   ('\r', '\r'), (' ', ' '), (' ', ' '), (' ', ' '),
   (' ', ' '), (' ', ' '), (' ', ' '),
   (' ', ' '), (' ', ' '), ('　', '　'),
   ('﻿', '﻿')]

/-- The class `[!%&()*+,\-./:;<=>?[^{|}~\n]` of RE_BEFORE. -/
def beforeChars : List (Char × Char) :=
  [('!', '!'), ('%', '%'), ('&', '&'), ('(', '('), (')', ')'), ('*', '*'),
   ('+', '+'), (',', ','), ('-', '-'), ('.', '.'), ('/', '/'), (':', ':'),
   (';', ';'), ('<', '<'), ('=', '='), ('>', '>'), ('?', '?'), ('[', '['),
   ('^', '^'), ('\x7b', '\x7b'), ('|', '|'), ('\x7d', '\x7d'), ('~', '~'),
   ('\n', '\n')]

/-- The class `[%&()*+,\-./:;<=>?[\]^{|}\n]` of RE_AFTER. -/
def afterChars : List (Char × Char) :=
  [('%', '%'), ('&', '&'), ('(', '('), (')', ')'), ('*', '*'), ('+', '+'),
   (',', ','), ('-', '-'), ('.', '.'), ('/', '/'), (':', ':'), (';', ';'),
   ('<', '<'), ('=', '='), ('>', '>'), ('?', '?'), ('[', '['), (']', ']'),
   ('^', '^'), ('\x7b', '\x7b'), ('|', '|'), ('\x7d', '\x7d'), ('\n', '\n')]

/-- The class `[),;\]{}:]` of RE_RHS_AFTER. -/
def rhsChars : List (Char × Char) :=
  [(')', ')'), (',', ','), (';', ';'), (']', ']'), ('\x7b', '\x7b'),
   ('\x7d', '\x7d'), (':', ':')]

/-- `[A-Za-z_$]` (RE_VAR_CHAR_START). -/
def varCharStart : List (Char × Char) :=
  [('A', 'Z'), ('a', 'z'), ('_', '_'), ('$', '$')]

/-- `[0-9]`. -/
def digitChars : List (Char × Char) := [('0', '9')]

/-- `(?:[!%&()*+,\-./:;<=>?[^{|}~\n]|^)\s*` -/
def RE_BEFORE : Reg :=
  .cat (.alt (.cls beforeChars) .bos) (.starCls jsWhitespace)

/-- `\s*(?:[%&()*+,\-./:;<=>?[\]^{|}\n]|$)` -/
def RE_AFTER : Reg :=
  .cat (.starCls jsWhitespace) (.alt (.cls afterChars) .eos)

/-- `\s*\??\.\s*` -/
def RE_DOT : Reg :=
  .cat (.starCls jsWhitespace)
    (.cat (.alt (.str ['?']) .eps) (.cat (.str ['.']) (.starCls jsWhitespace)))

/-- `(?:chrome|browser)` followed by RE_DOT. -/
def RE_CHROME_OR_BROWSER_DOT : Reg :=
  .cat (.alt (.str "chrome".toList) (.str "browser".toList)) RE_DOT

/-- `[A-Za-z_$][0-9]*` (RE_VAR_CHAR_END: RE_VAR_CHAR_START then `[0-9]*`). -/
def RE_VAR_CHAR_END : Reg :=
  .cat (.cls varCharStart) (.starCls digitChars)

/-- RE_VAR_CHAR_END followed by RE_DOT. -/
def RE_ALIAS_DOT : Reg :=
  .cat RE_VAR_CHAR_END RE_DOT

/-- `\s*(?:[),;\]{}:]|\|\||\?\?|$|\n(?=\s*[A-Za-z_$]))` -/
def RE_RHS_AFTER : Reg :=
  .cat (.starCls jsWhitespace)
    (.alt (.cls rhsChars)
      (.alt (.str ['|', '|'])
        (.alt (.str ['?', '?'])
          (.alt .eos
            (.cat (.str ['\n'])
              (.look (.cat (.starCls jsWhitespace) (.cls varCharStart))))))))

/-- `re_any(pattern)`: free occurrence of a JS symbol —
`RE_BEFORE(?:pattern)RE_AFTER` (the non-capturing group is a no-op
on the abstract syntax). -/
def re_any (pattern : Reg) : Reg :=
  .cat RE_BEFORE (.cat pattern RE_AFTER)

/-- `re_dot(pattern)`: occurrence as a property access —
`RE_ALIAS_DOT(?:pattern)RE_AFTER`. -/
def re_dot (pattern : Reg) : Reg :=
  .cat RE_ALIAS_DOT (.cat pattern RE_AFTER)

/-- `re_rhs(pattern)`: occurrence as a right-hand-side usage —
`RE_BEFORE(?:pattern)RE_RHS_AFTER`. -/
def re_rhs (pattern : Reg) : Reg :=
  .cat RE_BEFORE (.cat pattern RE_RHS_AFTER)

/-! ### JavaScript String.prototype.split(".") -/

/-- `query.split(".")` on the character list: always at least one part;
empty parts are kept, as in JavaScript. -/
def splitDot : List Char → List (List Char)
  | [] => [[]]
  | c :: rest =>
    if c = '.' then [] :: splitDot rest
    else
      match splitDot rest with
      | p :: ps => (c :: p) :: ps
      | [] => [[c]]

/-- `parts.join(RE_DOT)`: the query parts interleaved with RE_DOT.
Each part has already been wrapped `(?:part)`, which is the identity on
the abstract syntax. -/
def joinDotParts : List Reg → Reg
  | [] => .eps
  | [p] => p
  | p :: rest => .cat p (.cat RE_DOT (joinDotParts rest))

/-- `compileQuery` (we-api-finder.js lines 41–115): the list of
conditions for a query; each condition is a list of regexes that must
all match. The `sharedRegExps` interning map only shares `RegExp`
objects with equal source and does not change any pattern, so it has no
value-level counterpart here. -/
def compileQuery (query : String) : List (List Reg) :=
  let parts := (splitDot query.toList).map Reg.str
  let hasRoot := "browser.".toList.isPrefixOf query.toList
      || "chrome.".toList.isPrefixOf query.toList
  [[re_any (joinDotParts parts)]]
  ++ (if 2 ≤ parts.length ∧ hasRoot = false then
        [[re_rhs (.cat RE_CHROME_OR_BROWSER_DOT (parts.headD .eps)),
          re_dot (joinDotParts (parts.drop 1))]]
      else [])
  ++ (if 3 ≤ parts.length then
        [[re_rhs (joinDotParts (parts.take 2)),
          re_dot (joinDotParts (parts.drop 2))]]
      else [])
  ++ (if 4 ≤ parts.length then
        [[re_rhs (joinDotParts (parts.take 3)),
          re_dot (joinDotParts (parts.drop 3))]]
      else [])

/-! ### Comment stripping (QueryMatcher.addSource, lines 154–162)

`sourceText.replace(/(?<!:)\/\/.*/g, "").replace(/\/\*.*?\*\//sg, "")`.
Both global replaces are embedded as single left-to-right scans, which is
exactly how a global regex replace proceeds: find the leftmost match at
or after the current position, delete it, continue after it. -/

/-- Line terminators, which `.` (without the `s` flag) does not match. -/
def isLineTerm (c : Char) : Bool :=
  c = '\n' || c = '\r' || c = ' ' || c = ' '

/-- One scan of `/(?<!:)\/\/.*/g`-replacement by `""`. The first argument
is true while inside a line comment being dropped (`.*` runs to the line
terminator, which is kept). The `Option Char` is the previous character
of the original string, for the `(?<!:)` lookbehind; it is irrelevant
while dropping, since scanning resumes at a line terminator. -/
def stripLineComments : Bool → Option Char → List Char → List Char
  | _, _, [] => []
  | true, prev, c :: rest =>
    if isLineTerm c then c :: stripLineComments false (some c) rest
    else stripLineComments true prev rest
  | false, prev, '/' :: '/' :: rest =>
    if prev = some ':' then '/' :: stripLineComments false (some '/') ('/' :: rest)
    else stripLineComments true prev rest
  | false, _, c :: rest => c :: stripLineComments false (some c) rest

/-- Does `*/` occur in the list? (Decides whether `/\*.*?\*\//s` can
match from a given `/*`.) -/
def hasStarSlash : List Char → Bool
  | '*' :: '/' :: _ => true
  | _ :: rest => hasStarSlash rest
  | [] => false

/-- One scan of `/\/\*.*?\*\//sg`-replacement by `""`. The flag is true
while inside a block comment being dropped; the lazy `.*?` stops at the
first `*/`. A `/*` with no later `*/` is not a match, so its `/` is kept
and scanning resumes at the `*`. -/
def stripBlockComments : Bool → List Char → List Char
  | _, [] => []
  | true, '*' :: '/' :: rest => stripBlockComments false rest
  | true, _ :: rest => stripBlockComments true rest
  | false, '/' :: '*' :: rest =>
    if hasStarSlash rest then stripBlockComments true rest
    else '/' :: stripBlockComments false ('*' :: rest)
  | false, c :: rest => c :: stripBlockComments false rest

/-- The comment-stripped copy of a source text: line comments (except
after `:`) removed first, then block comments — the two `replace`
calls of `addSource` in order. -/
def stripComments (s : String) : String :=
  String.mk (stripBlockComments false (stripLineComments false none s.toList))

/-! ### QueryMatcher (we-api-finder.js lines 148–190)

`Set` insertion order is preserved and duplicates are ignored, so sets
are embedded as duplicate-free lists with append-if-absent insertion.
The `sharedRegExpResults` memo of `findMatches` caches `testMatch` by
`RegExp` identity; `testMatch` is a pure function of the regex and the
stored texts, so the memo is value-transparent and has no counterpart
here. -/

/-- JavaScript `Set.prototype.add` on an insertion-ordered list. -/
def setAdd (l : List String) (s : String) : List String :=
  if l.contains s then l else l ++ [s]

/-- State of a `QueryMatcher`: the compiled query map (shared with the
`QueryCompiler`), the matched-query set, and the stored source texts. -/
structure QueryMatcher where
  queriesAndPatterns : List (String × List (List Reg))
  matchedQueries : List String
  sourceTexts : List String
deriving DecidableEq, Repr

/-- `new QueryMatcher(queriesAndPatterns)`. -/
def QueryMatcher.init (qps : List (String × List (List Reg))) : QueryMatcher :=
  ⟨qps, [], []⟩

/-- `addSource`: store the raw text and its comment-stripped copy. -/
def QueryMatcher.addSource (m : QueryMatcher) (sourceText : String) : QueryMatcher :=
  { m with sourceTexts := setAdd (setAdd m.sourceTexts sourceText) (stripComments sourceText) }

/-- A condition list matches iff some condition has all its patterns
match at least one stored text:
`compiledPatterns.some(ps => ps.every(p => testMatch(p)))` where
`testMatch(p) = sourceTexts.some(s => p.test(s))`. -/
def condsMatch (sourceTexts : List String) (compiledPatterns : List (List Reg)) : Bool :=
  compiledPatterns.any fun ps => ps.all fun p => sourceTexts.any fun s => rtest p s

/-- The body of the `findMatches` loop for one `[query, compiledPatterns]`
entry: skip queries already matched, else add on a matching condition. -/
def findStep (sourceTexts : List String) (acc : List String)
    (qc : String × List (List Reg)) : List String :=
  if acc.contains qc.1 then acc
  else if condsMatch sourceTexts qc.2 then acc ++ [qc.1]
  else acc

/-- `findMatches()`: one pass over the query map. -/
def QueryMatcher.findMatches (m : QueryMatcher) : QueryMatcher :=
  { m with matchedQueries := m.queriesAndPatterns.foldl (findStep m.sourceTexts) m.matchedQueries }

/-- `getMatchedResults()`. -/
def QueryMatcher.getMatchedResults (m : QueryMatcher) : List String :=
  m.matchedQueries

/-! ### Synchronous QueryCompiler (lines 130–146) -/

/-- State of the synchronous `QueryCompiler`: the insertion-ordered
query → CompiledQuery map. (The `sharedRegExps` cache is
value-transparent, see `compileQuery`.) -/
structure QueryCompiler where
  queriesAndPatterns : List (String × List (List Reg))
deriving DecidableEq, Repr

/-- `new QueryCompiler()`. -/
def QueryCompiler.init : QueryCompiler := ⟨[]⟩

/-- `addQuery`: duplicate queries are ignored with a warning. -/
def QueryCompiler.addQuery (qc : QueryCompiler) (query : String) : QueryCompiler :=
  if (qc.queriesAndPatterns.map Prod.fst).contains query then qc
  else ⟨qc.queriesAndPatterns ++ [(query, compileQuery query)]⟩

/-- `newQueryMatcher()`. -/
def QueryCompiler.newQueryMatcher (qc : QueryCompiler) : QueryMatcher :=
  QueryMatcher.init qc.queriesAndPatterns

/-! ### Pattern source strings

The same composition at the level of regex source strings, exactly as
the JavaScript builds them with `String.raw` (every backslash below is a
literal character of the pattern source). These definitions are what
claims about "the pattern source" refer to; `Reg` above is the matching
semantics of the same fragments. -/

/-- Source string of RE_BEFORE. -/
def RE_BEFORE_S : String := "(?:[!%&()*+,\\-./:;<=>?[^\x7b|\x7d~\\n]|^)\\s*"

/-- Source string of RE_AFTER. -/
def RE_AFTER_S : String := "\\s*(?:[%&()*+,\\-./:;<=>?[\\]^\x7b|\x7d\\n]|$)"

/-- Source string of RE_DOT. -/
def RE_DOT_S : String := "\\s*\\??\\.\\s*"

/-- Source string of RE_CHROME_OR_BROWSER_DOT. -/
def RE_CHROME_OR_BROWSER_DOT_S : String := "(?:chrome|browser)" ++ RE_DOT_S

/-- Source string of RE_VAR_CHAR_START. -/
def RE_VAR_CHAR_START_S : String := "[A-Za-z_$]"

/-- Source string of RE_VAR_CHAR_END. -/
def RE_VAR_CHAR_END_S : String := RE_VAR_CHAR_START_S ++ "[0-9]*"

/-- Source string of RE_ALIAS_DOT. -/
def RE_ALIAS_DOT_S : String := RE_VAR_CHAR_END_S ++ RE_DOT_S

/-- Source string of RE_RHS_AFTER. -/
def RE_RHS_AFTER_S : String :=
  "\\s*(?:[),;\\]\x7b\x7d:]|\\|\\||\\?\\?|$|\\n(?=\\s*" ++ RE_VAR_CHAR_START_S ++ "))"

/-- `re_any` at source level. -/
def re_any_s (pattern : String) : String :=
  RE_BEFORE_S ++ "(?:" ++ pattern ++ ")" ++ RE_AFTER_S

/-- `re_dot` at source level. -/
def re_dot_s (pattern : String) : String :=
  RE_ALIAS_DOT_S ++ "(?:" ++ pattern ++ ")" ++ RE_AFTER_S

/-- `re_rhs` at source level. -/
def re_rhs_s (pattern : String) : String :=
  RE_BEFORE_S ++ "(?:" ++ pattern ++ ")" ++ RE_RHS_AFTER_S

/-- `query.split(".")` returning strings. -/
def jsSplitDot (q : String) : List String :=
  (splitDot q.toList).map String.mk

/-- ``parts = query.split(".").map(p => `(?:${p})`)``. -/
def wrapPart (p : String) : String := "(?:" ++ p ++ ")"

/-- `parts.join(RE_DOT)` at source level. -/
def joinDotS (ps : List String) : String := String.intercalate RE_DOT_S ps

/-- `compileQuery` at the level of pattern source strings: the very
string concatenations of we-api-finder.js lines 41–115. -/
def compileQuerySources (query : String) : List (List String) :=
  let parts := (jsSplitDot query).map wrapPart
  let hasRoot := "browser.".toList.isPrefixOf query.toList
      || "chrome.".toList.isPrefixOf query.toList
  [[re_any_s (joinDotS parts)]]
  ++ (if 2 ≤ parts.length ∧ hasRoot = false then
        [[re_rhs_s (RE_CHROME_OR_BROWSER_DOT_S ++ parts.headD ""),
          re_dot_s (joinDotS (parts.drop 1))]]
      else [])
  ++ (if 3 ≤ parts.length then
        [[re_rhs_s (joinDotS (parts.take 2)),
          re_dot_s (joinDotS (parts.drop 2))]]
      else [])
  ++ (if 4 ≤ parts.length then
        [[re_rhs_s (joinDotS (parts.take 3)),
          re_dot_s (joinDotS (parts.drop 3))]]
      else [])

/-! ### QueryMatcherWorkerPool (worker-pool module, lines 24–81)

Workers are identified by the order in which they are spawned, drawn
from a counter that never decreases (`Worker` objects are never reused
after `terminate`). Tasks are abstract identifiers; a task's payload
(the source-text set) plays no role in the pool's control flow. The
promise of `queryResultsForSourceTexts` is recorded through `resolved`
(tasks whose future was resolved by a worker message) and `failures`
(task/worker pairs whose future was rejected with that worker's error).
`busy` is the current worker → task dispatch assignment: an entry is
created by `worker[kTaskResolver] = task.resolve; worker.postMessage(…)`
and consumed when that worker's `message` or `error` handler fires. -/

structure WorkerPool where
  queriesAndPatterns : List (String × List (List Reg))
  numThreads : Nat
  nextId : Nat
  workers : List Nat
  idleWorkers : List Nat
  taskQueue : List Nat
  busy : List (Nat × Nat)
  errored : List Nat
  failures : List (Nat × Nat)
  resolved : List Nat
deriving DecidableEq, Repr

/-- `new QueryMatcherWorkerPool(queriesAndPatterns)`; `numThreads` is
the value of `getNumThreads()` (environment override, else available
parallelism), taken as a parameter. -/
def WorkerPool.init (qps : List (String × List (List Reg))) (numThreads : Nat) : WorkerPool :=
  ⟨qps, numThreads, 0, [], [], [], [], [], [], []⟩

/-- `getFreeWorker()`: the head of the idle queue if any; else a newly
spawned worker if fewer than `numThreads` are spawned; else none. -/
def getFreeWorker (p : WorkerPool) : Option (Nat × WorkerPool) :=
  match p.idleWorkers with
  | w :: rest => some (w, { p with idleWorkers := rest })
  | [] =>
    if p.workers.length < p.numThreads then
      some (p.nextId, { p with workers := p.workers ++ [p.nextId], nextId := p.nextId + 1 })
    else none

/-- Dispatch `worker.postMessage`: record the dispatch assignment
(`worker[kTaskResolver] = task.resolve` overwrites any stale entry). -/
def assignTask (p : WorkerPool) (w t : Nat) : WorkerPool :=
  { p with busy := (w, t) :: p.busy.filter fun e => e.1 ≠ w }

/-- The `while` loop of `_runNextTask`, over the pending tasks taken
out of the queue: dispatch while a free worker is obtainable, then put
the rest back. -/
def dispatchTasks : List Nat → WorkerPool → WorkerPool
  | [], p => p
  | t :: ts, p =>
    match getFreeWorker p with
    | some (w, p') => dispatchTasks ts (assignTask p' w t)
    | none => { p with taskQueue := t :: ts }

/-- `_runNextTask()`. -/
def runNextTask (p : WorkerPool) : WorkerPool :=
  dispatchTasks p.taskQueue { p with taskQueue := [] }

/-- `queryResultsForSourceTexts`: enqueue the task, then `_runNextTask`. -/
def stepSubmit (p : WorkerPool) (t : Nat) : WorkerPool :=
  runNextTask { p with taskQueue := p.taskQueue ++ [t] }

/-- A worker's `message` handler: resolve the dispatched task's future,
push the worker back onto the idle queue, `_runNextTask`. -/
def stepMessage (p : WorkerPool) (w t : Nat) : WorkerPool :=
  runNextTask
    { p with resolved := p.resolved ++ [t],
             busy := p.busy.filter fun e => e.1 ≠ w,
             idleWorkers := p.idleWorkers ++ [w] }

/-- A worker's `error` handler: reject the dispatched task's future with
the worker's error; the worker is not pushed into `idleWorkers` (it has
been terminated). -/
def stepError (p : WorkerPool) (w t : Nat) : WorkerPool :=
  { p with failures := p.failures ++ [(t, w)],
           busy := p.busy.filter fun e => e.1 ≠ w,
           errored := p.errored ++ [w] }

/-- `terminateAllWorkers()`: terminate every worker and clear the worker
and idle lists. -/
def stepTerminateAll (p : WorkerPool) : WorkerPool :=
  { p with workers := [], idleWorkers := [] }

/-- One observable event of the pool. `message`/`error` can only be
emitted by a live worker that currently holds a dispatched task: a
worker fires at most one reply per dispatched task, an errored worker
has been terminated, and `terminateAllWorkers` detaches the rest. -/
inductive PoolStep : WorkerPool → WorkerPool → Prop
  | submit (p : WorkerPool) (t : Nat) : PoolStep p (stepSubmit p t)
  | message (p : WorkerPool) (w t : Nat) (hb : (w, t) ∈ p.busy)
      (he : w ∉ p.errored) (hw : w ∈ p.workers) : PoolStep p (stepMessage p w t)
  | error (p : WorkerPool) (w t : Nat) (hb : (w, t) ∈ p.busy)
      (he : w ∉ p.errored) (hw : w ∈ p.workers) : PoolStep p (stepError p w t)
  | terminate (p : WorkerPool) : PoolStep p (stepTerminateAll p)

/-- States reachable from a freshly constructed pool. -/
def PoolReachable (qps : List (String × List (List Reg))) (numThreads : Nat)
    (p : WorkerPool) : Prop :=
  Relation.ReflTransGen PoolStep (WorkerPool.init qps numThreads) p

/-! ### Async QueryCompiler facade (worker-pool module, lines 85–117)

`addQuery` consults only the nullness of `this.workerPool`, so the pool
object is abstracted to the flag `hasWorkerPool`. -/

structure AsyncQueryCompiler where
  qcInternal : QueryCompiler
  hasWorkerPool : Bool
deriving DecidableEq, Repr

/-- `new QueryCompiler()` (async flavor). -/
def AsyncQueryCompiler.init : AsyncQueryCompiler := ⟨QueryCompiler.init, false⟩

/-- Async `addQuery`: throws after `newQueryMatcher` has installed the
worker pool, else delegates to the internal compiler. -/
def AsyncQueryCompiler.addQuery (c : AsyncQueryCompiler) (query : String) :
    Except String AsyncQueryCompiler :=
  if c.hasWorkerPool then
    Except.error "addQuery cannot be called after newQueryMatcher!"
  else
    Except.ok { c with qcInternal := c.qcInternal.addQuery query }

/-- Async `newQueryMatcher`: lazily installs the worker pool. (The
vended `AsyncQueryMatcher` itself does not touch the compiler.) -/
def AsyncQueryCompiler.newQueryMatcher (c : AsyncQueryCompiler) : AsyncQueryCompiler :=
  { c with hasWorkerPool := true }

/-- `destroy()`: terminates the pool and resets `workerPool` to null. -/
def AsyncQueryCompiler.destroy (c : AsyncQueryCompiler) : AsyncQueryCompiler :=
  { c with hasWorkerPool := false }

/-- Calls on the async compiler's public surface. -/
inductive ACOp : Type where
  | addQuery (q : String) : ACOp
  | newQueryMatcher : ACOp
  | destroy : ACOp
deriving DecidableEq, Repr

/-- Effect of one call on the compiler state; a throwing `addQuery`
raises before mutating anything, so the state is kept. -/
def acStep (c : AsyncQueryCompiler) : ACOp → AsyncQueryCompiler
  | .addQuery q =>
    match c.addQuery q with
    | .ok c' => c'
    | .error _ => c
  | .newQueryMatcher => c.newQueryMatcher
  | .destroy => c.destroy

/-- The compiler state after a sequence of calls on a fresh compiler. -/
def acRun (ops : List ACOp) : AsyncQueryCompiler :=
  ops.foldl acStep AsyncQueryCompiler.init

/-- Whether a call sequence leaves the worker pool installed: a matcher
has been vended and `destroy` has not been called since. -/
def poolActive (ops : List ACOp) : Bool :=
  ops.foldl
    (fun b op =>
      match op with
      | ACOp.newQueryMatcher => true
      | ACOp.destroy => false
      | ACOp.addQuery _ => b)
    false

/-! ### Basic lemmas about the matcher -/

theorem setAdd_mem_self (l : List String) (s : String) : s ∈ setAdd l s := by
  unfold setAdd
  split
  · next h => exact List.mem_of_elem_eq_true h
  · exact List.mem_append_right _ (List.mem_singleton.mpr rfl)

theorem mem_setAdd_of_mem {l : List String} {a : String} (s : String)
    (h : a ∈ l) : a ∈ setAdd l s := by
  unfold setAdd
  split
  · exact h
  · exact List.mem_append_left _ h

theorem setAdd_eq_of_mem {l : List String} {s : String} (h : s ∈ l) :
    setAdd l s = l := by
  unfold setAdd
  rw [if_pos (List.elem_eq_true_of_mem h)]

theorem subset_findStep (srcs acc : List String) (qc : String × List (List Reg)) :
    acc ⊆ findStep srcs acc qc := by
  unfold findStep
  split
  · exact List.Subset.refl acc
  split
  · exact List.subset_append_left acc _
  · exact List.Subset.refl acc

theorem subset_foldl_findStep (srcs : List String)
    (l : List (String × List (List Reg))) :
    ∀ acc : List String, acc ⊆ l.foldl (findStep srcs) acc := by
  induction l with
  | nil => intro acc; exact List.Subset.refl acc
  | cons qc l ih =>
    intro acc
    exact (subset_findStep srcs acc qc).trans (ih (findStep srcs acc qc))

/-! ### Call sequences on a synchronous matcher -/

/-- A call on the synchronous `QueryMatcher` surface that can change
its state. -/
inductive MOp : Type where
  | addSource (s : String) : MOp
  | findMatches : MOp
deriving DecidableEq, Repr

/-- Effect of one call. -/
def mStep (m : QueryMatcher) : MOp → QueryMatcher
  | .addSource s => m.addSource s
  | .findMatches => m.findMatches

/-- State after a sequence of calls. -/
def mRun (m : QueryMatcher) (ops : List MOp) : QueryMatcher :=
  ops.foldl mStep m

theorem matched_subset_mStep (m : QueryMatcher) (op : MOp) :
    m.matchedQueries ⊆ (mStep m op).matchedQueries := by
  cases op with
  | addSource s => exact List.Subset.refl _
  | findMatches => exact subset_foldl_findStep _ _ _

theorem matched_subset_mRun (ops : List MOp) :
    ∀ m : QueryMatcher, m.matchedQueries ⊆ (mRun m ops).matchedQueries := by
  induction ops with
  | nil => intro m; exact List.Subset.refl _
  | cons op ops ih =>
    intro m
    exact (matched_subset_mStep m op).trans (ih (mStep m op))

/-- C3: the matched-query set of a `QueryMatcher` is non-decreasing: no
single `addSource`/`findMatches` call removes a query, and after any
prefix of a call sequence the matched set is a subset of the matched set
after the whole sequence. -/
theorem c3_matched_monotone (m : QueryMatcher) (pre suf : List MOp) :
    (∀ op : MOp, m.matchedQueries ⊆ (mStep m op).matchedQueries) ∧
    (mRun m pre).matchedQueries ⊆ (mRun m (pre ++ suf)).matchedQueries := by
  constructor
  · exact matched_subset_mStep m
  · show (mRun m pre).matchedQueries ⊆ (List.foldl mStep m (pre ++ suf)).matchedQueries
    rw [List.foldl_append]
    exact matched_subset_mRun suf (mRun m pre)

/-- C3 at a concrete run: query `ns.api`, source added and matched in a
prefix, further calls never drop it. -/
theorem c3_matched_monotone_witness :
    (∀ op : MOp,
      (QueryMatcher.init [("ns.api", compileQuery "ns.api")]).matchedQueries ⊆
        (mStep (QueryMatcher.init [("ns.api", compileQuery "ns.api")]) op).matchedQueries) ∧
    (mRun (QueryMatcher.init [("ns.api", compileQuery "ns.api")])
        [MOp.addSource "ns?.api", MOp.findMatches]).matchedQueries ⊆
      (mRun (QueryMatcher.init [("ns.api", compileQuery "ns.api")])
        ([MOp.addSource "ns?.api", MOp.findMatches] ++ [MOp.addSource "x", MOp.findMatches])).matchedQueries :=
  c3_matched_monotone (QueryMatcher.init [("ns.api", compileQuery "ns.api")])
    [MOp.addSource "ns?.api", MOp.findMatches] [MOp.addSource "x", MOp.findMatches]

set_option maxRecDepth 8192

/-- C9: for the single query `ns.api`, a matcher that added the source
`ns?.api` reports the query matched after `findMatches`, while a matcher
that added only `ns??.api` reports no match: `?.` is accepted by the DOT
separator, `??.` is rejected. -/
theorem c9_optional_chaining :
    "ns.api" ∈ (((QueryMatcher.init [("ns.api", compileQuery "ns.api")]).addSource
        "ns?.api").findMatches).matchedQueries ∧
    "ns.api" ∉ (((QueryMatcher.init [("ns.api", compileQuery "ns.api")]).addSource
        "ns??.api").findMatches).matchedQueries := by
  constructor
  · decide
  · decide

/-! ### C4: source-text deduplication -/

theorem condsMatch_mono {srcs srcs' : List String}
    (hs : srcs ⊆ srcs') (cps : List (List Reg))
    (h : condsMatch srcs cps = true) : condsMatch srcs' cps = true := by
  simp only [condsMatch, List.any_eq_true, List.all_eq_true] at h ⊢
  obtain ⟨ps, hps, hall⟩ := h
  refine ⟨ps, hps, fun p hp => ?_⟩
  obtain ⟨s, hsmem, hst⟩ := hall p hp
  exact ⟨s, hs hsmem, hst⟩

theorem findStep_mono {srcs srcs' acc acc' : List String}
    (hs : srcs ⊆ srcs') (ha : acc ⊆ acc') (qc : String × List (List Reg)) :
    findStep srcs acc qc ⊆ findStep srcs' acc' qc := by
  unfold findStep
  by_cases h1 : acc.contains qc.1
  · rw [if_pos h1]
    exact ha.trans (subset_findStep srcs' acc' qc)
  rw [if_neg h1]
  by_cases h2 : condsMatch srcs qc.2
  · rw [if_pos h2]
    by_cases h1' : acc'.contains qc.1
    · rw [if_pos h1']
      intro a hmem
      rcases List.mem_append.mp hmem with h | h
      · exact ha h
      · rw [List.mem_singleton.mp h]
        exact List.mem_of_elem_eq_true h1'
    · rw [if_neg h1', if_pos (condsMatch_mono hs qc.2 h2)]
      exact List.append_subset.mpr
        ⟨ha.trans (List.subset_append_left acc' _), List.subset_append_right acc' _⟩
  · rw [if_neg h2]
    exact ha.trans (subset_findStep srcs' acc' qc)

theorem foldl_findStep_mono (l : List (String × List (List Reg)))
    {srcs srcs' : List String} (hs : srcs ⊆ srcs') :
    ∀ {acc acc' : List String}, acc ⊆ acc' →
      l.foldl (findStep srcs) acc ⊆ l.foldl (findStep srcs') acc' := by
  induction l with
  | nil => intro acc acc' ha; exact ha
  | cons qc l ih =>
    intro acc acc' ha
    exact ih (findStep_mono hs ha qc)

/-- C4 counterexample: the source texts `""` and `"//ns.api"` have the
same comment-stripped form, yet for the query `ns.api` adding only the
first yields no match while adding both yields a match — adding two
sources with coinciding stripped forms is not equivalent to adding only
one of them, because the raw copies also take part in matching. -/
theorem c4_counterexample :
    stripComments "" = stripComments "//ns.api" ∧
    "ns.api" ∉ (((QueryMatcher.init [("ns.api", compileQuery "ns.api")]).addSource
        "").findMatches).matchedQueries ∧
    "ns.api" ∈ ((((QueryMatcher.init [("ns.api", compileQuery "ns.api")]).addSource
        "").addSource "//ns.api").findMatches).matchedQueries := by
  refine ⟨by decide, by decide, by decide⟩

/-- C4 (amended): calling `addSource` twice with the same text leaves
the matcher in the same state as calling it once; and for two source
texts whose comment-stripped forms coincide, adding both yields matched
results (after `findMatches`) that contain those from adding only the
first — equality can fail, since the distinct raw copies are also
stored and matched (see the counterexample). -/
theorem c4_addSource_dedup (m : QueryMatcher) (s1 s2 : String)
    (h : stripComments s1 = stripComments s2) :
    (m.addSource s1).addSource s1 = m.addSource s1 ∧
    ((m.addSource s1).findMatches).matchedQueries ⊆
      (((m.addSource s1).addSource s2).findMatches).matchedQueries := by
  constructor
  · show ({ m.addSource s1 with sourceTexts := _ } : QueryMatcher) = m.addSource s1
    have h1 : s1 ∈ (m.addSource s1).sourceTexts :=
      mem_setAdd_of_mem _ (setAdd_mem_self _ s1)
    have h2 : stripComments s1 ∈ setAdd (m.addSource s1).sourceTexts s1 :=
      mem_setAdd_of_mem _ (setAdd_mem_self _ _)
    rw [QueryMatcher.mk.injEq]
    refine ⟨rfl, rfl, ?_⟩
    show setAdd (setAdd (m.addSource s1).sourceTexts s1) (stripComments s1) =
      (m.addSource s1).sourceTexts
    rw [setAdd_eq_of_mem h1, setAdd_eq_of_mem (setAdd_eq_of_mem h1 ▸ h2)]
  · apply foldl_findStep_mono
    · intro a ha
      exact mem_setAdd_of_mem _ (mem_setAdd_of_mem _ ha)
    · exact List.Subset.refl _

/-- C4 amended claim at concrete inputs: the sources `""` and
`"//ns.api"` strip to the same text. -/
theorem c4_addSource_dedup_witness :
    ((QueryMatcher.init [("ns.api", compileQuery "ns.api")]).addSource "").addSource "" =
      (QueryMatcher.init [("ns.api", compileQuery "ns.api")]).addSource "" ∧
    (((QueryMatcher.init [("ns.api", compileQuery "ns.api")]).addSource "").findMatches).matchedQueries ⊆
      ((((QueryMatcher.init [("ns.api", compileQuery "ns.api")]).addSource "").addSource
          "//ns.api").findMatches).matchedQueries :=
  c4_addSource_dedup (QueryMatcher.init [("ns.api", compileQuery "ns.api")]) "" "//ns.api"
    (by decide)

/-! ### C1: characterization of findMatches -/

theorem mem_setAdd_iff {l : List String} {s u : String} :
    u ∈ setAdd l s ↔ u ∈ l ∨ u = s := by
  unfold setAdd
  split
  · next h =>
    constructor
    · exact Or.inl
    · rintro (hu | rfl)
      · exact hu
      · exact List.mem_of_elem_eq_true h
  · simp [List.mem_append]

theorem mem_findStep_iff {srcs acc : List String} {q : String}
    {qc : String × List (List Reg)} :
    q ∈ findStep srcs acc qc ↔
      q ∈ acc ∨ (q = qc.1 ∧ condsMatch srcs qc.2 = true) := by
  unfold findStep
  split
  · next h =>
    constructor
    · exact Or.inl
    · rintro (hu | ⟨rfl, _⟩)
      · exact hu
      · exact List.mem_of_elem_eq_true h
  · next h =>
    split
    · next hm =>
      constructor
      · intro hmem
        rcases List.mem_append.mp hmem with hu | hu
        · exact Or.inl hu
        · exact Or.inr ⟨List.mem_singleton.mp hu, hm⟩
      · rintro (hu | ⟨rfl, _⟩)
        · exact List.mem_append_left _ hu
        · exact List.mem_append_right _ (List.mem_singleton.mpr rfl)
    · next hm =>
      constructor
      · exact Or.inl
      · rintro (hu | ⟨rfl, hm'⟩)
        · exact hu
        · exact absurd hm' hm

theorem mem_foldl_findStep_iff (srcs : List String) (q : String)
    (l : List (String × List (List Reg))) :
    ∀ acc : List String,
      q ∈ l.foldl (findStep srcs) acc ↔
        q ∈ acc ∨ ∃ cps, (q, cps) ∈ l ∧ condsMatch srcs cps = true := by
  induction l with
  | nil => intro acc; simp
  | cons qc l ih =>
    intro acc
    rw [List.foldl_cons, ih, mem_findStep_iff]
    constructor
    · rintro ((hu | ⟨rfl, hm⟩) | ⟨cps, hmem, hm⟩)
      · exact Or.inl hu
      · exact Or.inr ⟨qc.2, List.mem_cons_self _ _, hm⟩
      · exact Or.inr ⟨cps, List.mem_cons_of_mem _ hmem, hm⟩
    · rintro (hu | ⟨cps, hmem, hm⟩)
      · exact Or.inl (Or.inl hu)
      · rcases List.mem_cons.mp hmem with heq | htail
        · refine Or.inl (Or.inr ⟨?_, ?_⟩)
          · exact congrArg Prod.fst heq
          · have : cps = qc.2 := congrArg Prod.snd heq
            exact this ▸ hm
        · exact Or.inr ⟨cps, htail, hm⟩

theorem assoc_value_unique {l : List (String × List (List Reg))}
    {q : String} {a b : List (List Reg)}
    (hnd : (l.map Prod.fst).Nodup) (ha : (q, a) ∈ l) (hb : (q, b) ∈ l) :
    a = b := by
  induction l with
  | nil => cases ha
  | cons x l ih =>
    rw [List.map_cons, List.nodup_cons] at hnd
    rcases List.mem_cons.mp ha with heq | hta
    · rcases List.mem_cons.mp hb with heq' | htb
      · rw [← heq] at heq'
        exact (congrArg Prod.snd heq').symm
      · exfalso
        have hmem : q ∈ List.map Prod.fst l := List.mem_map_of_mem Prod.fst htb
        have hq1 : q = x.1 := congrArg Prod.fst heq
        rw [hq1] at hmem
        exact hnd.1 hmem
    · rcases List.mem_cons.mp hb with heq' | htb
      · exfalso
        have hmem : q ∈ List.map Prod.fst l := List.mem_map_of_mem Prod.fst hta
        have hq1 : q = x.1 := congrArg Prod.fst heq'
        rw [hq1] at hmem
        exact hnd.1 hmem
      · exact ih hnd.2 hta htb

theorem condsMatch_iff {srcs : List String} {cps : List (List Reg)} :
    condsMatch srcs cps = true ↔
      ∃ cond ∈ cps, ∀ p ∈ cond, ∃ s ∈ srcs, rtest p s = true := by
  simp [condsMatch, List.any_eq_true, List.all_eq_true]

/-- C1: after a `findMatches()` call, a query `q` (with compiled query
`cq` in the matcher's map, whose keys are duplicate-free as the compiler
guarantees) is in the matched set iff it already was before the call, or
`cq` contains a condition all of whose patterns match at least one
stored source text; and the stored set after `addSource t` consists of
the previously stored texts, the raw `t`, and its comment-stripped copy. -/
theorem c1_findMatches_characterization (m : QueryMatcher) (q : String)
    (cq : List (List Reg))
    (hnd : (m.queriesAndPatterns.map Prod.fst).Nodup)
    (hq : (q, cq) ∈ m.queriesAndPatterns) :
    (q ∈ m.findMatches.matchedQueries ↔
      q ∈ m.matchedQueries ∨
        ∃ cond ∈ cq, ∀ p ∈ cond, ∃ s ∈ m.sourceTexts, rtest p s = true) ∧
    (∀ t u, u ∈ (m.addSource t).sourceTexts ↔
      u ∈ m.sourceTexts ∨ u = t ∨ u = stripComments t) := by
  constructor
  · show q ∈ m.queriesAndPatterns.foldl (findStep m.sourceTexts) m.matchedQueries ↔ _
    rw [mem_foldl_findStep_iff]
    constructor
    · rintro (hu | ⟨cps, hmem, hm⟩)
      · exact Or.inl hu
      · refine Or.inr ?_
        rw [← condsMatch_iff]
        rw [assoc_value_unique hnd hq hmem]
        exact hm
    · rintro (hu | hex)
      · exact Or.inl hu
      · exact Or.inr ⟨cq, hq, condsMatch_iff.mpr hex⟩
  · intro t u
    show u ∈ setAdd (setAdd m.sourceTexts t) (stripComments t) ↔ _
    rw [mem_setAdd_iff, mem_setAdd_iff, or_assoc]

/-- A concrete matcher used to instantiate hypotheses of several
theorems: the single query `ns.api`, with the source `ns?.api` added. -/
def mNsApi : QueryMatcher :=
  (QueryMatcher.init [("ns.api", compileQuery "ns.api")]).addSource "ns?.api"

/-- C1 at a concrete matcher: the single query `ns.api` with the source
`ns?.api` stored. -/
theorem c1_findMatches_characterization_witness :
    ("ns.api" ∈ mNsApi.findMatches.matchedQueries ↔
      "ns.api" ∈ mNsApi.matchedQueries ∨
        ∃ cond ∈ compileQuery "ns.api", ∀ p ∈ cond,
          ∃ s ∈ mNsApi.sourceTexts, rtest p s = true) ∧
    (∀ t u, u ∈ (mNsApi.addSource t).sourceTexts ↔
      u ∈ mNsApi.sourceTexts ∨ u = t ∨ u = stripComments t) :=
  c1_findMatches_characterization mNsApi "ns.api" (compileQuery "ns.api")
    (by decide) (List.mem_singleton.mpr rfl)

/-! ### C2: lemmas about splitDot and root prefixes -/

theorem isPrefixOf_append_self (l t : List Char) : l.isPrefixOf (l ++ t) = true := by
  induction l with
  | nil => simp
  | cons c cs ih => simpa using ih

theorem exists_of_isPrefixOf {l cs : List Char} (h : l.isPrefixOf cs = true) :
    ∃ t, cs = l ++ t := by
  induction l generalizing cs with
  | nil => exact ⟨cs, rfl⟩
  | cons c l ih =>
    cases cs with
    | nil => simp [List.isPrefixOf] at h
    | cons b bs =>
      rw [List.isPrefixOf_cons₂, Bool.and_eq_true] at h
      obtain ⟨t, rfl⟩ := ih h.2
      exact ⟨t, by rw [eq_of_beq h.1]; rfl⟩

theorem splitDot_ne_nil (cs : List Char) : splitDot cs ≠ [] := by
  cases cs with
  | nil => simp [splitDot]
  | cons c rest =>
    unfold splitDot
    split
    · simp
    · split <;> simp

theorem splitDot_cons_dot (rest : List Char) :
    splitDot ('.' :: rest) = [] :: splitDot rest := rfl

theorem splitDot_cons_ne (c : Char) (rest : List Char) (hc : ¬c = '.')
    (p : List Char) (ps : List (List Char)) (h : splitDot rest = p :: ps) :
    splitDot (c :: rest) = (c :: p) :: ps := by
  conv_lhs => rw [splitDot.eq_def]
  simp only [if_neg hc, h]

theorem splitDot_append (p rest : List Char) (hp : '.' ∉ p) :
    splitDot (p ++ '.' :: rest) = p :: splitDot rest := by
  induction p with
  | nil => exact splitDot_cons_dot rest
  | cons c p ih =>
    have hc : ¬(c = '.') := fun h => hp (h ▸ List.mem_cons_self c p)
    have hp' : '.' ∉ p := fun h => hp (List.mem_cons_of_mem c h)
    show splitDot (c :: (p ++ '.' :: rest)) = _
    rw [splitDot_cons_ne c _ hc p (splitDot rest) (ih hp')]

theorem splitDot_decomp (cs : List Char) :
    ∀ p q : List Char, ∀ ps : List (List Char),
      splitDot cs = p :: q :: ps →
        ∃ rest, cs = p ++ '.' :: rest ∧ splitDot rest = q :: ps := by
  induction cs with
  | nil =>
    intro p q ps h
    simp [splitDot] at h
  | cons c cs ih =>
    intro p q ps h
    by_cases hc : c = '.'
    · subst hc
      rw [splitDot_cons_dot] at h
      rw [List.cons_eq_cons] at h
      exact ⟨cs, by rw [← h.1]; rfl, h.2⟩
    · obtain ⟨p', ps', h'⟩ := List.exists_cons_of_ne_nil (splitDot_ne_nil cs)
      rw [splitDot_cons_ne c cs hc p' ps' h'] at h
      rw [List.cons_eq_cons] at h
      obtain ⟨rfl, h2⟩ := h
      rw [h2] at h'
      obtain ⟨rest, rfl, hrest⟩ := ih p' q ps h'
      exact ⟨rest, rfl, hrest⟩

theorem prefix_root_iff (root : List Char) (hr : '.' ∉ root) (cs : List Char) :
    (root ++ ['.']).isPrefixOf cs = true ↔
      2 ≤ (splitDot cs).length ∧ (splitDot cs).headD [] = root := by
  constructor
  · intro h
    obtain ⟨t, rfl⟩ := exists_of_isPrefixOf h
    rw [List.append_assoc]
    show 2 ≤ (splitDot (root ++ '.' :: t)).length ∧
      (splitDot (root ++ '.' :: t)).headD [] = root
    rw [splitDot_append root t hr]
    refine ⟨?_, rfl⟩
    have := splitDot_ne_nil t
    have hpos : 0 < (splitDot t).length := List.length_pos.mpr this
    simpa [Nat.succ_le_succ_iff] using hpos
  · rintro ⟨hlen, hhead⟩
    obtain ⟨p, ps, h⟩ := List.exists_cons_of_ne_nil (splitDot_ne_nil cs)
    cases ps with
    | nil => rw [h] at hlen; simp at hlen
    | cons q ps' =>
      obtain ⟨rest, rfl, _⟩ := splitDot_decomp cs p q ps' h
      rw [h] at hhead
      simp only [List.headD_cons] at hhead
      subst hhead
      have : p ++ '.' :: rest = (p ++ ['.']) ++ rest := by
        rw [List.append_assoc]; rfl
      rw [this]
      exact isPrefixOf_append_self _ _

theorem jsSplitDot_ne_nil (q : String) : jsSplitDot q ≠ [] := by
  simp only [jsSplitDot]
  intro h
  exact splitDot_ne_nil q.toList (List.map_eq_nil.mp h)

theorem jsSplitDot_head_eq (q r : String) :
    (jsSplitDot q).headD "" = r ↔ (splitDot q.toList).headD [] = r.toList := by
  obtain ⟨p, ps, hps⟩ := List.exists_cons_of_ne_nil (splitDot_ne_nil q.toList)
  rw [jsSplitDot, hps]
  simp only [List.map_cons, List.headD_cons]
  rw [String.ext_iff]
  constructor
  · intro h; exact h
  · intro h; exact h

theorem hasRoot_iff (q : String) :
    ("browser.".toList.isPrefixOf q.toList
        || "chrome.".toList.isPrefixOf q.toList) = true ↔
      2 ≤ (jsSplitDot q).length ∧
        ((jsSplitDot q).headD "" = "browser" ∨ (jsSplitDot q).headD "" = "chrome") := by
  have hb : ("browser.".toList : List Char) = "browser".toList ++ ['.'] := by decide
  have hc : ("chrome.".toList : List Char) = "chrome".toList ++ ['.'] := by decide
  have hlen : (jsSplitDot q).length = (splitDot q.toList).length := by
    simp [jsSplitDot]
  rw [Bool.or_eq_true, hb, hc,
    prefix_root_iff "browser".toList (by decide) q.toList,
    prefix_root_iff "chrome".toList (by decide) q.toList]
  constructor
  · rintro (⟨h2, hh⟩ | ⟨h2, hh⟩)
    · exact ⟨hlen ▸ h2, Or.inl ((jsSplitDot_head_eq q "browser").mpr hh)⟩
    · exact ⟨hlen ▸ h2, Or.inr ((jsSplitDot_head_eq q "chrome").mpr hh)⟩
  · rintro ⟨h2, hh | hh⟩
    · exact Or.inl ⟨hlen ▸ h2, (jsSplitDot_head_eq q "browser").mp hh⟩
    · exact Or.inr ⟨hlen ▸ h2, (jsSplitDot_head_eq q "chrome").mp hh⟩

theorem headD_map_wrapPart (l : List String) (h : l ≠ []) :
    (l.map wrapPart).headD "" = wrapPart (l.headD "") := by
  cases l with
  | nil => exact absurd rfl h
  | cons a l => rfl

/-- C2: for a query with `n` dot-separated parts, the compiler emits
exactly, in this order: the literal condition (always); the
first-part-aliased condition iff `n ≥ 2` and the first part is neither
`browser` nor `chrome`; the two-part-aliased condition iff `n ≥ 3`; the
three-part-aliased condition iff `n ≥ 4`; and nothing else—in
particular no condition aliasing more than three parts. -/
theorem c2_emitted_conditions (q : String) :
    compileQuerySources q =
      [[re_any_s (joinDotS ((jsSplitDot q).map wrapPart))]]
      ++ (if 2 ≤ (jsSplitDot q).length ∧ (jsSplitDot q).headD "" ≠ "browser"
            ∧ (jsSplitDot q).headD "" ≠ "chrome" then
            [[re_rhs_s (RE_CHROME_OR_BROWSER_DOT_S ++ wrapPart ((jsSplitDot q).headD "")),
              re_dot_s (joinDotS (((jsSplitDot q).map wrapPart).drop 1))]]
          else [])
      ++ (if 3 ≤ (jsSplitDot q).length then
            [[re_rhs_s (joinDotS (((jsSplitDot q).map wrapPart).take 2)),
              re_dot_s (joinDotS (((jsSplitDot q).map wrapPart).drop 2))]]
          else [])
      ++ (if 4 ≤ (jsSplitDot q).length then
            [[re_rhs_s (joinDotS (((jsSplitDot q).map wrapPart).take 3)),
              re_dot_s (joinDotS (((jsSplitDot q).map wrapPart).drop 3))]]
          else []) := by
  have hguard : (2 ≤ ((jsSplitDot q).map wrapPart).length ∧
      ("browser.".toList.isPrefixOf q.toList
        || "chrome.".toList.isPrefixOf q.toList) = false) ↔
      (2 ≤ (jsSplitDot q).length ∧ (jsSplitDot q).headD "" ≠ "browser"
        ∧ (jsSplitDot q).headD "" ≠ "chrome") := by
    rw [List.length_map]
    by_cases h2 : 2 ≤ (jsSplitDot q).length
    · simp only [h2, true_and]
      rw [Bool.eq_false_iff, ne_eq, hasRoot_iff]
      simp [h2, not_or]
    · simp [h2]
  simp only [compileQuerySources]
  rw [headD_map_wrapPart _ (jsSplitDot_ne_nil q), List.length_map]
  rw [List.length_map] at hguard
  simp only [hguard]

/-! ### C8: the pattern source of the dot constructor -/

/-- Modelled from the spec: the `IDENT` fragment as §4.1 defines it,
`[A-Za-z_$][A-Za-z_$0-9]*` — an identifier of any length. (The code's
RE_VAR_CHAR_END differs: `[A-Za-z_$][0-9]*`.) -/
def specIdentSource : String := "[A-Za-z_$][A-Za-z_$0-9]*"

/-- Modelled from the spec: `ALIAS_DOT` = `IDENT DOT`. -/
def specAliasDotSource : String := specIdentSource ++ RE_DOT_S

/-- C8 counterexample: already for the body `x`, the pattern source the
code compiles for `dot(x)` is not `ALIAS_DOT (?:x) AFTER` with the
spec's `IDENT = [A-Za-z_$][A-Za-z_$0-9]*`; the code's alias fragment is
`[A-Za-z_$][0-9]*`. -/
theorem c8_counterexample :
    re_dot_s "x" ≠ specAliasDotSource ++ "(?:" ++ "x" ++ ")" ++ RE_AFTER_S := by
  decide

/-- C8 (amended): the pattern source compiled for `dot(B)` is exactly
`ALIAS_DOT (?:B) AFTER` where `ALIAS_DOT` is `[A-Za-z_$][0-9]*` (an
identifier-start character followed by a digit run — a suffix of an
identifier, sufficient because the pattern is unanchored) followed by
`DOT`, spelled out: `[A-Za-z_$][0-9]*\s*\??\.\s*(?:B)\s*(?:[%&()*+,\-./:;<=>?[\]^{|}\n]|$)`. -/
theorem c8_dot_pattern_source (B : String) :
    re_dot_s B =
      "[A-Za-z_$][0-9]*\\s*\\??\\.\\s*(?:" ++ B
        ++ ")\\s*(?:[%&()*+,\\-./:;<=>?[\\]^\x7b|\x7d\\n]|$)" := by
  show RE_ALIAS_DOT_S ++ "(?:" ++ B ++ ")" ++ RE_AFTER_S = _
  have h1 : RE_ALIAS_DOT_S ++ "(?:" = "[A-Za-z_$][0-9]*\\s*\\??\\.\\s*(?:" := rfl
  have h2 : (")" : String) ++ RE_AFTER_S =
      ")\\s*(?:[%&()*+,\\-./:;<=>?[\\]^\x7b|\x7d\\n]|$)" := rfl
  rw [h1, String.append_assoc ("[A-Za-z_$][0-9]*\\s*\\??\\.\\s*(?:" ++ B) ")" RE_AFTER_S, h2]

/-! ### C10: a right-hand-side occurrence is a free occurrence -/

theorem append_ne_nil_iff {α : Type} {a b : List α} :
    a ++ b ≠ [] ↔ a ≠ [] ∨ b ≠ [] := by
  rw [Ne, List.append_eq_nil]
  tauto

theorem bnot_isEmpty_iff {α : Type} {l : List α} : (!l.isEmpty) = true ↔ l ≠ [] := by
  cases l <;> simp

theorem alt_mat (r1 r2 : Reg) (b : Bool) (t : List Char) :
    (Reg.alt r1 r2).mat b t = r1.mat b t ++ r2.mat b t := rfl

theorem cat_mat (r1 r2 : Reg) (b : Bool) (t : List Char) :
    (Reg.cat r1 r2).mat b t = (r1.mat b t).flatMap fun p => r2.mat p.1 p.2 := rfl

theorem cat_mat_ne_iff {r1 r2 : Reg} {b : Bool} {t : List Char} :
    (Reg.cat r1 r2).mat b t ≠ [] ↔ ∃ p ∈ r1.mat b t, r2.mat p.1 p.2 ≠ [] := by
  rw [cat_mat, Ne, List.bind_eq_nil]
  push_neg
  rfl

theorem mat_str_ne_nil {l : List Char} {b : Bool} {t : List Char}
    (h : (Reg.str l).mat b t ≠ []) : l.isPrefixOf t = true := by
  by_cases hp : l.isPrefixOf t
  · exact hp
  · exfalso
    apply h
    show (if l.isPrefixOf t then [(b && l.isEmpty, t.drop l.length)] else []) = []
    rw [if_neg hp]

theorem mat_eos_ne_nil {b : Bool} {t : List Char}
    (h : (Reg.eos).mat b t ≠ []) : t = [] := by
  cases t with
  | nil => rfl
  | cons c cs =>
    exfalso
    apply h
    rfl

theorem eos_mat_nil (b : Bool) : (Reg.eos).mat b [] ≠ [] := by
  show [(b, ([] : List Char))] ≠ []
  exact List.cons_ne_nil _ _

theorem mat_cls_ne_nil {rs : List (Char × Char)} {b : Bool} {t : List Char}
    (h : (Reg.cls rs).mat b t ≠ []) :
    ∃ c cs, t = c :: cs ∧ rangesContain rs c = true := by
  cases t with
  | nil => exact absurd rfl h
  | cons c cs =>
    refine ⟨c, cs, rfl, ?_⟩
    by_cases hc : rangesContain rs c
    · exact hc
    · exfalso
      apply h
      show (if rangesContain rs c then [(false, cs)] else []) = []
      rw [if_neg hc]

theorem cls_mat_cons {rs : List (Char × Char)} {c : Char} {cs : List Char} {b : Bool}
    (h : rangesContain rs c = true) : (Reg.cls rs).mat b (c :: cs) ≠ [] := by
  show (if rangesContain rs c then [(false, cs)] else []) ≠ []
  rw [if_pos h]
  exact List.cons_ne_nil _ _

theorem rhsChars_subset_afterChars (c : Char)
    (h : rangesContain rhsChars c = true) : rangesContain afterChars c = true := by
  simp only [rangesContain, List.any_eq_true] at h
  obtain ⟨r, hr, hc⟩ := h
  rw [Bool.and_eq_true, decide_eq_true_eq, decide_eq_true_eq] at hc
  fin_cases hr <;>
  · have hceq := le_antisymm hc.2 hc.1
    subst hceq
    decide

theorem rhsAfter_to_after {b : Bool} {t : List Char}
    (h : RE_RHS_AFTER.mat b t ≠ []) : RE_AFTER.mat b t ≠ [] := by
  rw [RE_RHS_AFTER, cat_mat_ne_iff] at h
  obtain ⟨p, hp, halt⟩ := h
  rw [RE_AFTER, cat_mat_ne_iff]
  refine ⟨p, hp, ?_⟩
  rw [alt_mat, alt_mat, alt_mat, alt_mat] at halt
  rw [alt_mat]
  rcases append_ne_nil_iff.mp halt with h1 | h'
  · obtain ⟨c, cs, heq, hc⟩ := mat_cls_ne_nil h1
    rw [heq]
    exact append_ne_nil_iff.mpr (Or.inl (cls_mat_cons (rhsChars_subset_afterChars c hc)))
  rcases append_ne_nil_iff.mp h' with h2 | h'
  · obtain ⟨u, hu⟩ := exists_of_isPrefixOf (mat_str_ne_nil h2)
    rw [hu]
    exact append_ne_nil_iff.mpr (Or.inl (cls_mat_cons (by decide)))
  rcases append_ne_nil_iff.mp h' with h3 | h'
  · obtain ⟨u, hu⟩ := exists_of_isPrefixOf (mat_str_ne_nil h3)
    rw [hu]
    exact append_ne_nil_iff.mpr (Or.inl (cls_mat_cons (by decide)))
  rcases append_ne_nil_iff.mp h' with h4 | h5
  · rw [mat_eos_ne_nil h4]
    exact append_ne_nil_iff.mpr (Or.inr (eos_mat_nil p.1))
  · rw [cat_mat_ne_iff] at h5
    obtain ⟨p', hp', _⟩ := h5
    have hne : (Reg.str ['\n']).mat p.1 p.2 ≠ [] := List.ne_nil_of_mem hp'
    obtain ⟨u, hu⟩ := exists_of_isPrefixOf (mat_str_ne_nil hne)
    rw [hu]
    exact append_ne_nil_iff.mpr (Or.inl (cls_mat_cons (by decide)))

theorem re_rhs_to_re_any_mat (B : Reg) (b : Bool) (t : List Char)
    (h : (re_rhs B).mat b t ≠ []) : (re_any B).mat b t ≠ [] := by
  rw [re_rhs, cat_mat_ne_iff] at h
  obtain ⟨p, hp, h2⟩ := h
  rw [cat_mat_ne_iff] at h2
  obtain ⟨p', hp', h3⟩ := h2
  rw [re_any, cat_mat_ne_iff]
  exact ⟨p, hp, cat_mat_ne_iff.mpr ⟨p', hp', rhsAfter_to_after h3⟩⟩

theorem rtestFrom_imp {r1 r2 : Reg}
    (himp : ∀ b t, r1.mat b t ≠ [] → r2.mat b t ≠ []) :
    ∀ (b : Bool) (t : List Char), rtestFrom r1 b t = true → rtestFrom r2 b t = true := by
  intro b t
  induction t generalizing b with
  | nil =>
    intro h
    show (!(r2.mat b []).isEmpty) = true
    rw [bnot_isEmpty_iff]
    apply himp
    rw [← bnot_isEmpty_iff]
    exact h
  | cons c cs ih =>
    intro h
    show (!(r2.mat b (c :: cs)).isEmpty || rtestFrom r2 false cs) = true
    have h' : (!(r1.mat b (c :: cs)).isEmpty || rtestFrom r1 false cs) = true := h
    rw [Bool.or_eq_true] at h' ⊢
    rcases h' with h1 | h1
    · exact Or.inl (bnot_isEmpty_iff.mpr (himp _ _ (bnot_isEmpty_iff.mp h1)))
    · exact Or.inr (ih false h1)

/-- C10: for every body pattern `B` and source text `s`, if the
`rhs(B)` pattern matches `s` then the `any(B)` pattern also matches
`s`: every trailing context accepted by RE_RHS_AFTER is accepted by
RE_AFTER, so a right-hand-side occurrence is a free occurrence. -/
theorem c10_rhs_implies_any (B : Reg) (s : String)
    (h : rtest (re_rhs B) s = true) : rtest (re_any B) s = true :=
  rtestFrom_imp (re_rhs_to_re_any_mat B) true s.toList h

/-- C10 at the concrete body `a` and source `x=a;`. -/
theorem c10_rhs_implies_any_witness :
    rtest (re_rhs (Reg.str ['a'])) "x=a;" = true ∧
      rtest (re_any (Reg.str ['a'])) "x=a;" = true :=
  ⟨by decide, c10_rhs_implies_any (Reg.str ['a']) "x=a;" (by decide)⟩

/-! ### C5: async addQuery refusal -/

theorem acStep_pool (c : AsyncQueryCompiler) (op : ACOp) :
    (acStep c op).hasWorkerPool =
      (match op with
       | ACOp.newQueryMatcher => true
       | ACOp.destroy => false
       | ACOp.addQuery _ => c.hasWorkerPool) := by
  cases op with
  | addQuery q =>
    show (acStep c (ACOp.addQuery q)).hasWorkerPool = c.hasWorkerPool
    by_cases h : c.hasWorkerPool
    · simp [acStep, AsyncQueryCompiler.addQuery, h]
    · simp [acStep, AsyncQueryCompiler.addQuery, h]
  | newQueryMatcher => rfl
  | destroy => rfl

theorem acRun_pool (ops : List ACOp) :
    ∀ c : AsyncQueryCompiler,
      (ops.foldl acStep c).hasWorkerPool =
        ops.foldl
          (fun b op =>
            match op with
            | ACOp.newQueryMatcher => true
            | ACOp.destroy => false
            | ACOp.addQuery _ => b)
          c.hasWorkerPool := by
  induction ops with
  | nil => intro c; rfl
  | cons op ops ih =>
    intro c
    rw [List.foldl_cons, List.foldl_cons, ih (acStep c op), acStep_pool]

theorem acRun_hasPool_eq (ops : List ACOp) :
    (acRun ops).hasWorkerPool = poolActive ops :=
  acRun_pool ops AsyncQueryCompiler.init

/-- C5 counterexample: in the call sequence `newQueryMatcher; destroy`,
a matcher has been vended before the next `addQuery`, yet that
`addQuery` succeeds — `destroy()` resets `workerPool` to null, so
"throws iff `newQueryMatcher` has been called before" is false. -/
theorem c5_counterexample :
    ACOp.newQueryMatcher ∈ [ACOp.newQueryMatcher, ACOp.destroy] ∧
    ((acRun [ACOp.newQueryMatcher, ACOp.destroy]).addQuery "tabs.create").isOk = true := by
  refine ⟨by decide, ?_⟩
  rfl

/-- C5 (amended): on the async compiler, the installed-pool flag after a
call sequence is exactly "a matcher has been vended and `destroy` has
not been called since"; `addQuery` throws iff that flag is set; a
throwing `addQuery` leaves the whole compiler state unchanged; and
while no pool is installed, `addQuery` of a duplicate query does not
throw and leaves the state unchanged. -/
theorem c5_addQuery_refusal (ops : List ACOp) (q : String) :
    ((acRun ops).hasWorkerPool = poolActive ops) ∧
    ((acRun ops).addQuery q
        = Except.error "addQuery cannot be called after newQueryMatcher!" ↔
      poolActive ops = true) ∧
    (poolActive ops = true → acStep (acRun ops) (ACOp.addQuery q) = acRun ops) ∧
    (poolActive ops = false →
      ((acRun ops).qcInternal.queriesAndPatterns.map Prod.fst).contains q = true →
        (acRun ops).addQuery q = Except.ok (acRun ops)) := by
  have hpool := acRun_hasPool_eq ops
  refine ⟨hpool, ?_, ?_, ?_⟩
  · rw [AsyncQueryCompiler.addQuery, hpool]
    by_cases h : poolActive ops
    · simp [h]
    · simp only [h, Bool.false_eq_true, if_false]
      constructor
      · intro hcontra
        exact absurd hcontra (by simp)
      · intro hcontra
        exact absurd hcontra (by simp)
  · intro h
    have hb : (acRun ops).hasWorkerPool = true := by rw [hpool, h]
    show (match (acRun ops).addQuery q with
          | .ok c' => c'
          | .error _ => acRun ops) = acRun ops
    rw [AsyncQueryCompiler.addQuery, hb, if_pos rfl]
  · intro h hdup
    have hb : (acRun ops).hasWorkerPool = false := by rw [hpool, h]
    rw [AsyncQueryCompiler.addQuery, hb, if_neg (by simp), QueryCompiler.addQuery,
      if_pos hdup, ← hb]

/-- C5 amended claim at the concrete sequence `addQuery a;
newQueryMatcher` followed by `addQuery b`: the pool is installed and the
call throws. -/
theorem c5_addQuery_refusal_witness :
    ((acRun [ACOp.addQuery "a", ACOp.newQueryMatcher]).hasWorkerPool =
        poolActive [ACOp.addQuery "a", ACOp.newQueryMatcher]) ∧
    ((acRun [ACOp.addQuery "a", ACOp.newQueryMatcher]).addQuery "b"
        = Except.error "addQuery cannot be called after newQueryMatcher!" ↔
      poolActive [ACOp.addQuery "a", ACOp.newQueryMatcher] = true) ∧
    (poolActive [ACOp.addQuery "a", ACOp.newQueryMatcher] = true →
      acStep (acRun [ACOp.addQuery "a", ACOp.newQueryMatcher]) (ACOp.addQuery "b") =
        acRun [ACOp.addQuery "a", ACOp.newQueryMatcher]) ∧
    (poolActive [ACOp.addQuery "a", ACOp.newQueryMatcher] = false →
      ((acRun [ACOp.addQuery "a", ACOp.newQueryMatcher]).qcInternal.queriesAndPatterns.map
          Prod.fst).contains "b" = true →
        (acRun [ACOp.addQuery "a", ACOp.newQueryMatcher]).addQuery "b" =
          Except.ok (acRun [ACOp.addQuery "a", ACOp.newQueryMatcher])) :=
  c5_addQuery_refusal [ACOp.addQuery "a", ACOp.newQueryMatcher] "b"

/-! ### C6/C7: worker-pool invariants -/

/-- Invariant of reachable pool states: the worker count respects the
ceiling; every recorded worker id is below the spawn counter; an
errored worker is neither idle nor holds a dispatched task; a busy
worker is not idle; the idle queue has no duplicates. -/
structure PoolInv (p : WorkerPool) : Prop where
  len_le : p.workers.length ≤ p.numThreads
  idle_lt : ∀ w ∈ p.idleWorkers, w < p.nextId
  busy_lt : ∀ e ∈ p.busy, e.1 < p.nextId
  err_lt : ∀ w ∈ p.errored, w < p.nextId
  err_idle : ∀ w ∈ p.errored, w ∉ p.idleWorkers
  err_busy : ∀ e ∈ p.busy, e.1 ∉ p.errored
  busy_idle : ∀ e ∈ p.busy, e.1 ∉ p.idleWorkers
  idle_nodup : p.idleWorkers.Nodup

theorem mem_busy_filter {p : WorkerPool} {w : Nat} {e : Nat × Nat}
    (h : e ∈ p.busy.filter fun e => e.1 ≠ w) : e ∈ p.busy ∧ e.1 ≠ w := by
  have := List.mem_filter.mp h
  exact ⟨this.1, by simpa using this.2⟩

theorem inv_assign_of_getFree {p : WorkerPool} (hinv : PoolInv p) {w : Nat}
    {p' : WorkerPool} (h : getFreeWorker p = some (w, p')) (t : Nat) :
    PoolInv (assignTask p' w t) ∧
      (assignTask p' w t).taskQueue = p.taskQueue ∧
      (assignTask p' w t).errored = p.errored := by
  rw [getFreeWorker] at h
  cases hidle : p.idleWorkers with
  | cons a rest =>
    rw [hidle] at h
    rw [Option.some.injEq, Prod.mk.injEq] at h
    obtain ⟨hw, hp'⟩ := h
    subst hp'
    rw [hw] at hidle
    have hlt : w < p.nextId := hinv.idle_lt w (hidle ▸ List.mem_cons_self w rest)
    have hwerr : w ∉ p.errored := fun hw => hinv.err_idle w hw (hidle ▸ List.mem_cons_self w rest)
    have hnodup := hinv.idle_nodup
    rw [hidle, List.nodup_cons] at hnodup
    refine ⟨⟨hinv.len_le, ?_, ?_, hinv.err_lt, ?_, ?_, ?_, hnodup.2⟩, rfl, rfl⟩
    · intro v hv
      exact hinv.idle_lt v (hidle ▸ List.mem_cons_of_mem w hv)
    · intro e he
      rcases List.mem_cons.mp he with rfl | he'
      · exact hlt
      · exact hinv.busy_lt e (mem_busy_filter he').1
    · intro v hv hvr
      exact hinv.err_idle v hv (hidle ▸ List.mem_cons_of_mem w hvr)
    · intro e he
      rcases List.mem_cons.mp he with rfl | he'
      · exact hwerr
      · exact hinv.err_busy e (mem_busy_filter he').1
    · intro e he
      rcases List.mem_cons.mp he with rfl | he'
      · exact hnodup.1
      · intro hmem
        exact hinv.busy_idle e (mem_busy_filter he').1
          (hidle ▸ List.mem_cons_of_mem w hmem)
  | nil =>
    rw [hidle] at h
    by_cases hlen : p.workers.length < p.numThreads
    · rw [if_pos hlen, Option.some.injEq, Prod.mk.injEq] at h
      obtain ⟨rfl, rfl⟩ := h
      refine ⟨⟨?_, ?_, ?_, ?_, ?_, ?_, ?_, ?_⟩, rfl, rfl⟩
      · show (p.workers ++ [p.nextId]).length ≤ p.numThreads
        rw [List.length_append, List.length_singleton]
        exact hlen
      · intro v hv
        exact absurd (hidle ▸ hv) (List.not_mem_nil v)
      · intro e he
        rcases List.mem_cons.mp he with rfl | he'
        · exact Nat.lt_succ_self _
        · exact Nat.lt_succ_of_lt (hinv.busy_lt e (mem_busy_filter he').1)
      · intro v hv
        exact Nat.lt_succ_of_lt (hinv.err_lt v hv)
      · intro v hv
        exact fun hmem => absurd (hidle ▸ hmem) (List.not_mem_nil v)
      · intro e he
        rcases List.mem_cons.mp he with rfl | he'
        · exact fun hmem => absurd (hinv.err_lt _ hmem) (Nat.lt_irrefl _)
        · exact hinv.err_busy e (mem_busy_filter he').1
      · intro e he
        exact fun hmem => absurd (hidle ▸ hmem) (List.not_mem_nil e.1)
      · exact hidle ▸ hinv.idle_nodup
    · rw [if_neg hlen] at h
      exact absurd h (Option.noConfusion)

theorem inv_queue_set (p : WorkerPool) (ts : List Nat) (hinv : PoolInv p) :
    PoolInv { p with taskQueue := ts } :=
  ⟨hinv.len_le, hinv.idle_lt, hinv.busy_lt, hinv.err_lt, hinv.err_idle,
    hinv.err_busy, hinv.busy_idle, hinv.idle_nodup⟩

theorem inv_dispatchTasks :
    ∀ (ts : List Nat) (p : WorkerPool), PoolInv p → PoolInv (dispatchTasks ts p) := by
  intro ts
  induction ts with
  | nil => intro p hinv; exact hinv
  | cons t ts ih =>
    intro p hinv
    show PoolInv (dispatchTasks (t :: ts) p)
    rw [dispatchTasks]
    cases hg : getFreeWorker p with
    | some wp =>
      obtain ⟨w, p'⟩ := wp
      exact ih _ ((inv_assign_of_getFree hinv hg t).1)
    | none => exact inv_queue_set p (t :: ts) hinv

theorem inv_runNextTask (p : WorkerPool) (hinv : PoolInv p) :
    PoolInv (runNextTask p) :=
  inv_dispatchTasks p.taskQueue _ (inv_queue_set p [] hinv)

theorem assign_getFree_errored {p : WorkerPool} {w : Nat} {p' : WorkerPool}
    (h : getFreeWorker p = some (w, p')) (t : Nat) :
    (assignTask p' w t).errored = p.errored := by
  rw [getFreeWorker] at h
  cases hidle : p.idleWorkers with
  | cons a rest =>
    rw [hidle, Option.some.injEq, Prod.mk.injEq] at h
    rw [← h.2]
    rfl
  | nil =>
    rw [hidle] at h
    by_cases hlen : p.workers.length < p.numThreads
    · rw [if_pos hlen, Option.some.injEq, Prod.mk.injEq] at h
      rw [← h.2]
      rfl
    · rw [if_neg hlen] at h
      exact absurd h (Option.noConfusion)

theorem dispatchTasks_errored :
    ∀ (ts : List Nat) (p : WorkerPool), (dispatchTasks ts p).errored = p.errored := by
  intro ts
  induction ts with
  | nil => intro p; rfl
  | cons t ts ih =>
    intro p
    rw [dispatchTasks]
    cases hg : getFreeWorker p with
    | some wp =>
      obtain ⟨w, p'⟩ := wp
      rw [ih, assign_getFree_errored hg t]
    | none => rfl

theorem runNextTask_errored (p : WorkerPool) : (runNextTask p).errored = p.errored := by
  rw [runNextTask, dispatchTasks_errored]

theorem inv_stepError {p : WorkerPool} {w t : Nat} (hinv : PoolInv p)
    (hb : (w, t) ∈ p.busy) : PoolInv (stepError p w t) := by
  refine ⟨hinv.len_le, hinv.idle_lt, ?_, ?_, ?_, ?_, ?_, hinv.idle_nodup⟩
  · intro e he'
    exact hinv.busy_lt e (mem_busy_filter he').1
  · intro v hv
    rcases List.mem_append.mp hv with hv' | hv'
    · exact hinv.err_lt v hv'
    · rw [List.mem_singleton] at hv'
      subst hv'
      exact hinv.busy_lt (v, t) hb
  · intro v hv
    rcases List.mem_append.mp hv with hv' | hv'
    · exact hinv.err_idle v hv'
    · rw [List.mem_singleton] at hv'
      subst hv'
      exact hinv.busy_idle (v, t) hb
  · intro e he'
    obtain ⟨hmem, hne⟩ := mem_busy_filter he'
    intro hcontra
    rcases List.mem_append.mp hcontra with hv' | hv'
    · exact hinv.err_busy e hmem hv'
    · rw [List.mem_singleton] at hv'
      exact hne hv'
  · intro e he'
    exact hinv.busy_idle e (mem_busy_filter he').1

theorem inv_poolStep {p p' : WorkerPool} (h : PoolStep p p') (hinv : PoolInv p) :
    PoolInv p' := by
  cases h with
  | submit t =>
    exact inv_runNextTask _ (inv_queue_set p _ hinv)
  | message w t hb he hw =>
    apply inv_runNextTask
    have hwidle : w ∉ p.idleWorkers := hinv.busy_idle (w, t) hb
    refine ⟨hinv.len_le, ?_, ?_, hinv.err_lt, ?_, ?_, ?_, ?_⟩
    · intro v hv
      rcases List.mem_append.mp hv with hv' | hv'
      · exact hinv.idle_lt v hv'
      · rw [List.mem_singleton] at hv'
        subst hv'
        exact hinv.busy_lt (v, t) hb
    · intro e he
      exact hinv.busy_lt e (mem_busy_filter he).1
    · intro v hv hvmem
      rcases List.mem_append.mp hvmem with hv' | hv'
      · exact hinv.err_idle v hv hv'
      · rw [List.mem_singleton] at hv'
        subst hv'
        exact he hv
    · intro e he'
      exact hinv.err_busy e (mem_busy_filter he').1
    · intro e he'
      obtain ⟨hmem, hne⟩ := mem_busy_filter he'
      intro hcontra
      rcases List.mem_append.mp hcontra with hv' | hv'
      · exact hinv.busy_idle e hmem hv'
      · rw [List.mem_singleton] at hv'
        exact hne hv'
    · rw [List.nodup_append]
      refine ⟨hinv.idle_nodup, List.nodup_singleton w, ?_⟩
      intro a ha hb'
      rw [List.mem_singleton] at hb'
      subst hb'
      exact hwidle ha
  | error w t hb he hw =>
    exact inv_stepError hinv hb
  | terminate =>
    refine ⟨Nat.zero_le _, ?_, hinv.busy_lt, hinv.err_lt, ?_, hinv.err_busy, ?_, List.nodup_nil⟩
    · intro v hv
      exact absurd hv (List.not_mem_nil v)
    · intro v _ hv
      exact absurd hv (List.not_mem_nil v)
    · intro e _ hv
      exact absurd hv (List.not_mem_nil e.1)

theorem poolInv_init (qps : List (String × List (List Reg))) (n : Nat) :
    PoolInv (WorkerPool.init qps n) := by
  refine ⟨Nat.zero_le _, ?_, ?_, ?_, ?_, ?_, ?_, List.nodup_nil⟩ <;>
  · intro x hx
    exact absurd hx (List.not_mem_nil x)

theorem inv_of_steps {p p2 : WorkerPool} (hinv : PoolInv p)
    (h : Relation.ReflTransGen PoolStep p p2) : PoolInv p2 := by
  induction h with
  | refl => exact hinv
  | tail _ hstep ih => exact inv_poolStep hstep ih

theorem inv_reachable {qps : List (String × List (List Reg))} {n : Nat}
    {p : WorkerPool} (h : PoolReachable qps n p) : PoolInv p :=
  inv_of_steps (poolInv_init qps n) h

theorem errored_subset_poolStep {p p' : WorkerPool} (h : PoolStep p p') :
    p.errored ⊆ p'.errored := by
  cases h with
  | submit t =>
    intro x hx
    rw [stepSubmit, runNextTask_errored]
    exact hx
  | message w t hb he hw =>
    intro x hx
    rw [stepMessage, runNextTask_errored]
    exact hx
  | error w t hb he hw =>
    intro x hx
    exact List.mem_append_left _ hx
  | terminate =>
    intro x hx
    exact hx

theorem errored_subset_steps {p p2 : WorkerPool}
    (h : Relation.ReflTransGen PoolStep p p2) : p.errored ⊆ p2.errored := by
  induction h with
  | refl => exact List.Subset.refl _
  | tail _ hstep ih => exact ih.trans (errored_subset_poolStep hstep)

/-- C6: in every reachable pool state the number of spawned workers is
at most `numThreads`, and `getFreeWorker` returns the head of the idle
queue whenever one exists — a state change to `workers` (a spawn) can
only happen when the idle queue is empty. -/
theorem c6_worker_bound (qps : List (String × List (List Reg))) (n : Nat)
    (p : WorkerPool) (hreach : PoolReachable qps n p) :
    p.workers.length ≤ p.numThreads ∧
    (∀ w rest, p.idleWorkers = w :: rest →
      getFreeWorker p = some (w, { p with idleWorkers := rest })) ∧
    (∀ w p', getFreeWorker p = some (w, p') → p'.workers ≠ p.workers →
      p.idleWorkers = []) := by
  refine ⟨(inv_reachable hreach).len_le, ?_, ?_⟩
  · intro w rest h
    rw [getFreeWorker, h]
  · intro w p' hsome hne
    rw [getFreeWorker] at hsome
    cases hidle : p.idleWorkers with
    | nil => rfl
    | cons a rest =>
      rw [hidle, Option.some.injEq, Prod.mk.injEq] at hsome
      exfalso
      apply hne
      rw [← hsome.2]

/-- C6 at the reachable state after one task submission to a
two-thread pool. -/
theorem c6_worker_bound_witness :
    (stepSubmit (WorkerPool.init [] 2) 0).workers.length ≤
      (stepSubmit (WorkerPool.init [] 2) 0).numThreads ∧
    (∀ w rest, (stepSubmit (WorkerPool.init [] 2) 0).idleWorkers = w :: rest →
      getFreeWorker (stepSubmit (WorkerPool.init [] 2) 0) =
        some (w, { stepSubmit (WorkerPool.init [] 2) 0 with idleWorkers := rest })) ∧
    (∀ w p', getFreeWorker (stepSubmit (WorkerPool.init [] 2) 0) = some (w, p') →
      p'.workers ≠ (stepSubmit (WorkerPool.init [] 2) 0).workers →
      (stepSubmit (WorkerPool.init [] 2) 0).idleWorkers = []) :=
  c6_worker_bound [] 2 (stepSubmit (WorkerPool.init [] 2) 0)
    (Relation.ReflTransGen.single (PoolStep.submit (WorkerPool.init [] 2) 0))

/-- C7: when a worker holding a dispatched task emits an error, the
task's future is failed with that worker's error, the worker is not
pushed back onto the idle queue, and in every later reachable state it
is neither idle nor holds a dispatched task — it is never selected
again. -/
theorem c7_error_retires_worker (qps : List (String × List (List Reg))) (n : Nat)
    (p : WorkerPool) (w t : Nat) (hreach : PoolReachable qps n p)
    (hb : (w, t) ∈ p.busy) :
    (t, w) ∈ (stepError p w t).failures ∧
    w ∉ (stepError p w t).idleWorkers ∧
    (∀ p2, Relation.ReflTransGen PoolStep (stepError p w t) p2 →
      w ∉ p2.idleWorkers ∧ ∀ t2, (w, t2) ∉ p2.busy) := by
  have hinv := inv_reachable hreach
  refine ⟨List.mem_append_right _ (List.mem_singleton.mpr rfl),
    hinv.busy_idle (w, t) hb, ?_⟩
  intro p2 hsteps
  have hinv2 : PoolInv p2 := inv_of_steps (inv_stepError hinv hb) hsteps
  have herr2 : w ∈ p2.errored :=
    errored_subset_steps hsteps
      (List.mem_append_right _ (List.mem_singleton.mpr rfl))
  exact ⟨hinv2.err_idle w herr2, fun t2 hmem => hinv2.err_busy (w, t2) hmem herr2⟩

/-- C7 at a concrete run: one-thread pool, task `5` dispatched to
worker `0`, which then errors. -/
theorem c7_error_retires_worker_witness :
    (5, 0) ∈ (stepError (stepSubmit (WorkerPool.init [] 1) 5) 0 5).failures ∧
    0 ∉ (stepError (stepSubmit (WorkerPool.init [] 1) 5) 0 5).idleWorkers ∧
    (∀ p2, Relation.ReflTransGen PoolStep
        (stepError (stepSubmit (WorkerPool.init [] 1) 5) 0 5) p2 →
      0 ∉ p2.idleWorkers ∧ ∀ t2, (0, t2) ∉ p2.busy) :=
  c7_error_retires_worker [] 1 (stepSubmit (WorkerPool.init [] 1) 5) 0 5
    (Relation.ReflTransGen.single (PoolStep.submit (WorkerPool.init [] 1) 5))
    (by decide)
